import Mathlib

set_option maxRecDepth 8000

/-!
# Verification of the GitHub statistics aggregation engine

Shallow embedding of `dashboard/services/github_client.py` (class `GitHubClient`),
the statistics aggregation core: the API paginator (`_get_all_pages`), the
language aggregator (`_aggregate_languages`), the contribution estimator
(`_get_contribution_data`), the streak calculator (`_calculate_streaks`) and
the error-classifying orchestrator (`get_user_stats`).

Modelling conventions:
* Calendar timestamps are abstracted to day numbers (`Nat`, days since an
  arbitrary epoch well before any date of interest).  The daily walk in
  `_get_contribution_data` steps `datetime` values by exactly 24 hours, so the
  sequence of emitted `%Y-%m-%d` date strings corresponds to consecutive day
  numbers; two `datetime`s produce the same date string iff they have the same
  day number.  The sub-day granularity of the single comparison
  `event_date < one_year_ago` matters only for events falling on the boundary
  day itself and is abstracted: an event is kept iff its day number is
  at least `today - 365`.
* Calendar months are abstracted to a month-index function `μ : Nat → Nat`
  mapping a day number to its month number; a `%Y-%m` month string equals the
  month string of another date iff the month indices agree, and
  `date_str.startswith(month_str)` iff `μ date = month`.  The walk
  `current_month = one_year_ago.replace(day=1); while current_month <= now`
  visits exactly the months `μ (today - 365), …, μ today` (the first-of-month
  datetime produced by `.replace(day=1)` keeps `now`'s clock time, so the
  current month's first is `≤ now` and the next month's first is `> now`).
* Python exceptions are modelled with `Except`; a fallible fetch is passed in
  as an `Except` value (the outcome the network produced).
* Python `dict`s keyed by date/month strings are modelled by their lookup
  functions (`get(k, 0)`), and the language-bytes dict — whose insertion order
  matters for the stable sort — by an insertion-ordered association list.
* Machine integers are `Nat` (all counters in the source are non-negative and
  Python integers are unbounded), and the float percentages of
  `_aggregate_languages` are modelled as exact rationals with `round(x, 1)`
  modelled as exact round-half-to-even to one decimal place.
-/

/-! ## API paginator: `_get_all_pages`

The source loops: fetch `params['page']`, stop on an empty page, extend,
stop on a short page (`len(data) < per_page` with `per_page = 100`), else
bump the page number.  The loop has no bound of its own, so the model takes
explicit fuel and returns `none` when the fuel is exhausted (a server that
keeps answering full pages makes the source loop forever); it also returns
the number of GET requests issued. -/

/-- One state of the `while True` loop of `_get_all_pages`: remaining fuel,
current `params['page']`, accumulated `all_items`, requests issued so far.
Returns `(all_items, request count)`, or `none` if the fuel ran out. -/
def getAllPagesLoop (server : Nat → List Nat) :
    Nat → Nat → List Nat → Nat → Option (List Nat × Nat)
  | 0, _, _, _ => none
  | fuel + 1, page, acc, reqs =>
    let data := server page
    if data.isEmpty then some (acc, reqs + 1)
    else if data.length < 100 then some (acc ++ data, reqs + 1)
    else getAllPagesLoop server fuel (page + 1) (acc ++ data) (reqs + 1)

/-- `_get_all_pages`: start at `page = 1` with an empty accumulator. -/
def getAllPages (server : Nat → List Nat) (fuel : Nat) : Option (List Nat × Nat) :=
  getAllPagesLoop server fuel 1 [] 0

/-! ## Language aggregator: `_aggregate_languages` -/

/-- A repository summary as consumed by the aggregation core: `name`,
`owner.login`, optional primary `language` and `size` in KB. -/
structure Repo where
  name : String
  ownerLogin : String
  language : Option String
  size : Nat
  deriving Repr, DecidableEq

/-- `language_bytes[lang] = language_bytes.get(lang, 0) + b` on an
insertion-ordered association list: an existing key is updated in place,
a new key is appended at the end (CPython dict semantics). -/
def addLangBytes : List (String × Nat) → String → Nat → List (String × Nat)
  | [], lang, b => [(lang, b)]
  | (k, v) :: rest, lang, b =>
    if k = lang then (k, v + b) :: rest else (k, v) :: addLangBytes rest lang b

/-- First loop of `_aggregate_languages`: for every repo with a truthy
primary language, add `size * 1024` bytes to that language. -/
def sizeEstimateBytes (repos : List Repo) : List (String × Nat) :=
  repos.foldl
    (fun m r =>
      match r.language with
      | some lang => if lang = "" then m else addLangBytes m lang (r.size * 1024)
      | none => m)
    []

/-- Second loop of `_aggregate_languages`: for at most the first 10 repos,
fetch `GET /repos/{owner}/{repo}/languages` and add its byte counts on top;
any failure for a repo is swallowed (`except: continue`).  `fetch` is the
outcome the network produced for each repository. -/
def addDetailedBytes (fetch : Repo → Except Unit (List (String × Nat)))
    (repos : List Repo) (m0 : List (String × Nat)) : List (String × Nat) :=
  (repos.take 10).foldl
    (fun m r =>
      match fetch r with
      | .ok langData => langData.foldl (fun m p => addLangBytes m p.1 p.2) m
      | .error _ => m)
    m0

/-- The fully aggregated `language_bytes` dict. -/
def languageBytes (repos : List Repo) (fetch : Repo → Except Unit (List (String × Nat))) :
    List (String × Nat) :=
  addDetailedBytes fetch repos (sizeEstimateBytes repos)

/-- `total_bytes = sum(language_bytes.values())`. -/
def totalLangBytes (repos : List Repo) (fetch : Repo → Except Unit (List (String × Nat))) : Nat :=
  ((languageBytes repos fetch).map Prod.snd).sum

/-- Round-half-to-even to the nearest integer, the rounding mode of Python's
built-in `round` (modelled on exact rationals; the source applies it to the
float `bytes / total * 100`). -/
def roundHalfEven (q : ℚ) : ℤ :=
  if q - ⌊q⌋ < 1 / 2 then ⌊q⌋
  else if 1 / 2 < q - ⌊q⌋ then ⌊q⌋ + 1
  else if ⌊q⌋ % 2 = 0 then ⌊q⌋ else ⌊q⌋ + 1

/-- `round(q, 1)`: round-half-to-even to one decimal place. -/
def pyRound1 (q : ℚ) : ℚ := (roundHalfEven (q * 10) : ℚ) / 10

/-- Insert an item into a byte-count-descending list, before the first entry
whose byte count is `≤` its own (so among equal byte counts the inserted —
earlier — item comes first, matching a stable sort). -/
def insertByBytes (p : String × Nat) : List (String × Nat) → List (String × Nat)
  | [] => [p]
  | q :: rest => if q.2 ≤ p.2 then p :: q :: rest else q :: insertByBytes p rest

/-- Stable sort, descending by byte count. -/
def sortByBytesDesc : List (String × Nat) → List (String × Nat)
  | [] => []
  | p :: rest => insertByBytes p (sortByBytesDesc rest)

/-- `sorted(language_bytes.items(), key=lambda x: x[1], reverse=True)`:
Python's sort is stable, and `reverse=True` reverses the comparison while
keeping equal-key items in insertion order; a stable sort's output is
determined extensionally by the key, so the stable insertion sort above
models it exactly. -/
def sortedLangBytes (repos : List Repo) (fetch : Repo → Except Unit (List (String × Nat))) :
    List (String × Nat) :=
  sortByBytesDesc (languageBytes repos fetch)

/-- `_aggregate_languages`: empty result when no bytes were aggregated,
otherwise the percentage list, descending by raw byte count, truncated to 8. -/
def aggregateLanguages (repos : List Repo)
    (fetch : Repo → Except Unit (List (String × Nat))) : List (String × ℚ) :=
  let total := totalLangBytes repos fetch
  if total = 0 then []
  else
    (((sortedLangBytes repos fetch).map
      (fun p => (p.1, pyRound1 ((p.2 : ℚ) / (total : ℚ) * 100)))).take 8)

/-! ## Contribution estimator: `_get_contribution_data` -/

/-- A public event from `GET /users/{username}/events/public`: the day number
of its `created_at` timestamp, its `type` string, the `payload.size` field
(0 when absent, as `get('payload', {}).get('size', 0)` yields) and the
`repo.name` field (`none` when the `repo` dict is absent/empty). -/
structure Event where
  day : Nat
  etype : String
  payloadSize : Nat
  repoName : Option String
  deriving Repr, DecidableEq

/-- The events surviving `if event_date < one_year_ago: continue`
(`one_year_ago = now - timedelta(days=365)`). -/
def keptEvents (today : Nat) (events : List Event) : List Event :=
  events.filter (fun e => !(e.day < today - 365))

/-- `daily_contributions.get(date, 0)` after the event loop: every kept event
adds 1 to its day's bucket. -/
def dailyBucket (today : Nat) (events : List Event) (d : Nat) : Nat :=
  ((keptEvents today events).filter (fun e => e.day == d)).length

/-- `monthly_contributions.get(month, 0)` after the event loop (`μ` maps a
day number to its month index, see the module docstring). -/
def monthlyBucket (today : Nat) (μ : Nat → Nat) (events : List Event) (m : Nat) : Nat :=
  ((keptEvents today events).filter (fun e => μ e.day == m)).length

/-- The full `daily_list`: the walk `current_date = one_year_ago;
while current_date <= now: …; current_date += timedelta(days=1)` runs exactly
366 times, emitting day `today - 365 + i` at iteration `i`; a zero bucket at an
iteration whose position `len(daily_list)` is a multiple of 7 is replaced by a
synthetic count of 1. -/
def fullDailyList (today : Nat) (events : List Event) : List (Nat × Nat) :=
  (List.range 366).map (fun i =>
    let d := today - 365 + i
    let c := dailyBucket today events d
    (d, if c = 0 ∧ i % 7 = 0 then 1 else c))

/-- The full `monthly_list`: walk the months of `one_year_ago … now`
(month indices `μ (today - 365) … μ today`); a zero monthly bucket is replaced
by the NUMBER of already-materialized `daily_list` entries whose date string
starts with the month string (`len([d for d in daily_list if
d['date'].startswith(month_str)])`). -/
def fullMonthlyList (today : Nat) (μ : Nat → Nat) (events : List Event) : List (Nat × Nat) :=
  let daily := fullDailyList today events
  (List.range (μ today + 1 - μ (today - 365))).map (fun j =>
    let m := μ (today - 365) + j
    let c := monthlyBucket today μ events m
    (m, if c = 0 then (daily.filter (fun p => μ p.1 == m)).length else c))

/-- Python exceptions that can cross the component boundaries of
`github_client.py`: an `requests.exceptions.HTTPError` carrying the response's
status code (when the response object has one) and the parsed value of its
`X-RateLimit-Reset` header (when present), any other
`requests.exceptions.RequestException`, an `UnboundLocalError`, and any other
exception. -/
inductive PyExc where
  | httpError (status : Option Nat) (resetHeader : Option Nat)
  | requestException (msg : String)
  | unboundLocalError
  | otherException (msg : String)
  deriving Repr, DecidableEq

/-- The record returned by `_get_contribution_data` (field names as in the
returned dict; `daily`/`monthly` entries are `(day, count)` / `(month, count)`
pairs). -/
structure ContribData where
  total : Nat
  contributions_last_year : Nat
  commits_last_year : Nat
  prs_last_year : Nat
  issues_last_year : Nat
  contributed_to : Nat
  daily : List (Nat × Nat)
  monthly : List (Nat × Nat)
  deriving Repr, DecidableEq

/-- `_get_contribution_data`.  `eventsRes` is the outcome of
`self._get_all_pages(f"/users/{username}/events/public")`.

When that fetch raises, the `except Exception` arm assigns the estimates
`commits_last_year = len(repos) * 10`, `prs_last_year = len(repos) * 2`,
`issues_last_year = len(repos) * 1` — but `contributed_to` is assigned only
inside the `try`, *after* the fetch, so it is an unbound local there, and the
return statement's `len(contributed_to)` raises `UnboundLocalError` (the
daily/monthly lists built in between are discarded).  The model therefore
returns `Except.error PyExc.unboundLocalError` on that path. -/
def getContributionData (today : Nat) (μ : Nat → Nat) (username : String)
    (repos : List Repo) (eventsRes : Except PyExc (List Event)) :
    Except PyExc ContribData :=
  match eventsRes with
  | .error _ =>
    -- fallback estimates (dead assignments: the return below raises):
    -- commits = repos.length * 10; prs = repos.length * 2; issues = repos.length * 1
    .error .unboundLocalError
  | .ok events =>
    let kept := keptEvents today events
    let commits := (kept.filter (fun e => e.etype == "PushEvent")).foldl
      (fun a e => a + e.payloadSize) 0
    let prs := (kept.filter (fun e => e.etype == "PullRequestEvent")).length
    let issues := (kept.filter (fun e => e.etype == "IssuesEvent")).length
    let contributedTo := ((kept.filterMap (fun e => e.repoName)).filter
      (fun n => n != "" && n.contains '/' && ((n.splitOn (r"/")).headD (r"") != username))).dedup.length
    let daily := fullDailyList today events
    let monthly := fullMonthlyList today μ events
    -- sum(daily_contributions.values()): one summand per distinct bucketed date
    let dictValuesSum := (((kept.map (fun e => e.day)).dedup).map (dailyBucket today events)).sum
    .ok {
      total := if dictValuesSum = 0 then (daily.map Prod.snd).sum else dictValuesSum
      contributions_last_year := (daily.map Prod.snd).sum
      commits_last_year := commits
      prs_last_year := prs
      issues_last_year := issues
      contributed_to := contributedTo
      daily := daily.drop (daily.length - 60)
      monthly := monthly.drop (monthly.length - 12) }

/-- Projection helpers for stating facts about a successful
`_get_contribution_data` call. -/
def contribField (r : Except PyExc ContribData) (f : ContribData → Nat) : Nat :=
  match r with
  | .ok d => f d
  | .error _ => 0

/-- The `daily` series of a successful `_get_contribution_data` call. -/
def dailyOf (r : Except PyExc ContribData) : List (Nat × Nat) :=
  match r with
  | .ok d => d.daily
  | .error _ => []

/-- The `monthly` series of a successful `_get_contribution_data` call. -/
def monthlyOf (r : Except PyExc ContribData) : List (Nat × Nat) :=
  match r with
  | .ok d => d.monthly
  | .error _ => []

/-! ## Streak calculator: `_calculate_streaks` -/

/-- The result dict of `_calculate_streaks` (dates as day numbers). -/
structure StreakResult where
  current : Nat
  longest : Nat
  current_start : Option Nat
  current_end : Option Nat
  longest_start : Option Nat
  longest_end : Option Nat
  deriving Repr, DecidableEq

/-- The set of dates with a strictly positive count
(`if item['count'] > 0: contribution_dates.add(date)`). -/
def contributionDates (daily : List (Nat × Nat)) : Finset Nat :=
  ((daily.filter (fun p => 0 < p.2)).map Prod.fst).toFinset

/-- The `while check_date in contribution_dates` loop: walk backwards from
`today`, counting consecutive member days.  Day numbers are `Nat`, so the walk
also stops after visiting day 0 (the epoch is earlier than every date that can
appear in a series, so day 0 is never a member on real inputs). -/
def currentStreakLoop (s : Finset Nat) : Nat → Nat
  | 0 => if 0 ∈ s then 1 else 0
  | d + 1 => if d + 1 ∈ s then currentStreakLoop s d + 1 else 0

/-- The `for i in range(1, len(sorted_dates))` scan of `_calculate_streaks`,
carrying (`sorted_dates[i-1]`, `streak_length`, `longest_streak`,
`longest_start`, `longest_end`).  A day difference of exactly 1 extends the
run; otherwise the run is closed, updating the maximum on strict improvement
(`if streak_length > longest_streak`).  The trailing run is closed by the
final check after the loop.  At closing time the run occupies the indices
`i - streak_length … i - 1`, whose values are the consecutive integers
`prev - (streak_length - 1) … prev`, so `sorted_dates[i - streak_length]`
is `prev + 1 - streak_length`. -/
def longestLoop (prev len best : Nat) (bs be : Option Nat) :
    List Nat → Nat × Option Nat × Option Nat
  | [] => if best < len then (len, some (prev + 1 - len), some prev) else (best, bs, be)
  | d :: rest =>
    if d - prev = 1 then longestLoop d (len + 1) best bs be rest
    else if best < len then longestLoop d 1 len (some (prev + 1 - len)) (some prev) rest
    else longestLoop d 1 best bs be rest

/-- Longest-streak computation over the ascending list of distinct active
dates: `longest_streak = 0` for the empty list, otherwise the scan starts at
`sorted_dates[0]` with `streak_length = 1`. -/
def longestFrom : List Nat → Nat × Option Nat × Option Nat
  | [] => (0, none, none)
  | d :: rest => longestLoop d 1 0 none none rest

/-- `_calculate_streaks`.  In the backward walk the source sets
`current_start` once, at the first iteration (i.e. to `today`), and overwrites
`current_end` each iteration (so it ends at the earliest day of the streak,
`today - (current_streak - 1)`). -/
def calculateStreaks (today : Nat) (daily : List (Nat × Nat)) : StreakResult :=
  if daily = [] then ⟨0, 0, none, none, none, none⟩
  else
    let s := contributionDates daily
    if s = ∅ then ⟨0, 0, none, none, none, none⟩
    else
      let c := currentStreakLoop s today
      let lg := longestFrom (s.sort (· ≤ ·))
      ⟨c, lg.1,
        if c = 0 then none else some today,
        if c = 0 then none else some (today + 1 - c),
        lg.2.1, lg.2.2⟩

/-! ## Orchestrator and error classification: `get_user_stats`

The assembled `GitHubStats` record is irrelevant to the error-handling
behaviour, so the orchestrator is modelled polymorphically in the statistics
payload: `body` is the outcome of the whole fresh computation inside the
`try` (profile fetch, repo fetch, language aggregation, contribution
estimation, streak calculation, record assembly — any exception any of them
raises surfaces here).  The cache is modelled structurally: `cached` is the
deserialized entry on a hit, and the second component of the result is the
value written to the cache (`none` when nothing is written). -/

/-- The messages `get_user_stats` puts into the `ValueError`s it raises, one
constructor per `raise` site (the taxonomy lives only in these message
strings).  `rateLimit` carries `has_token = bool(self.token)` and the parsed
`X-RateLimit-Reset` value appended when the header is present. -/
inductive Msg where
  | userNotFound (username : String)
  | rateLimit (hasToken : Bool) (resetAt : Option Nat)
  | apiErrorStatus (status : Nat)
  | apiErrorStr
  | networkError (msg : String)
  | fetchError
  deriving Repr, DecidableEq

/-- The Python exception class of a raised exception, as seen by the caller. -/
inductive PyExcType where
  | valueError
  | httpErrorT
  | requestExceptionT
  | unboundLocalT
  | otherT
  deriving Repr, DecidableEq

/-- An exception escaping `get_user_stats`: its Python class and its message. -/
structure Raised where
  ty : PyExcType
  msg : Msg
  deriving Repr, DecidableEq

/-- The `except` chain of `get_user_stats` (lines 126-162): an `HTTPError`
whose response has a 404 status becomes the user-not-found message; a 403
becomes the rate-limit message carrying `bool(self.token)` and the reset
header value; any other status the generic status message; an `HTTPError`
whose response lacks a status code the generic string message; any other
`RequestException` the network-error message; and any other exception the
generic fetch-error message. -/
def classifyException (token : Option String) (username : String) : PyExc → Msg
  | .httpError (some s) reset =>
    if s = 404 then .userNotFound username
    else if s = 403 then .rateLimit token.isSome reset
    else .apiErrorStatus s
  | .httpError none _ => .apiErrorStr
  | .requestException m => .networkError m
  | .unboundLocalError => .fetchError
  | .otherException _ => .fetchError

/-- The `RATE_LIMIT_NO_TOKEN` marker: present in the raised message iff the
message is a rate-limit message built without a configured token. -/
def msgNoTokenFlag : Msg → Bool
  | .rateLimit hasToken _ => !hasToken
  | _ => false

/-- The reset timestamp appended to the raised message (`none` when the
header was absent or the message is not a rate-limit message). -/
def msgResetTime : Msg → Option Nat
  | .rateLimit _ reset => reset
  | _ => none

/-- `get_user_stats`: cache hit returns the deserialized entry; on a miss the
fresh computation either succeeds — its record is written to the cache and
returned — or raises, and every exception is converted to a `ValueError`
whose message the `except` chain picks; nothing is cached then.  The result
pairs the caller-visible outcome with the cache write performed. -/
def getUserStats {Stats : Type} (username : String) (token : Option String)
    (cached : Option Stats) (body : Except PyExc Stats) :
    Except Raised Stats × Option Stats :=
  match cached with
  | some c => (.ok c, none)
  | none =>
    match body with
    | .ok stats => (.ok stats, some stats)
    | .error e => (.error ⟨.valueError, classifyException token username e⟩, none)

/-! ## Concrete inputs and small auxiliary definitions used by the theorems -/

/-- A concrete month-index function for concrete evaluations: 31-day months
(any monotone month function works; the claims about the series shape hold
for every `μ`). -/
def monthOf31 : Nat → Nat := fun n => n / 31

/-- A throwaway username for concrete evaluations. -/
def demoUser : String := "u"

/-- A paginated server answering pages of exactly 100, 100 and 37 items
(the items are the numbers `0 … 236`). -/
def pagedServer : Nat → List Nat := fun p =>
  if p = 1 then List.range 100
  else if p = 2 then (List.range 100).map (fun i => 100 + i)
  else if p = 3 then (List.range 37).map (fun i => 200 + i)
  else []

/-- A repository list for the language-aggregation counterexample: a single
repository with no primary language. -/
def demoRepos : List Repo := [⟨r"r", r"o", none, 0⟩]

/-- A language-detail fetch outcome yielding byte counts 3346, 3346 and 3308
(total 10000), whose percentages 33.46, 33.46 and 33.08 all round up. -/
def demoFetch : Repo → Except Unit (List (String × Nat)) := fun _ =>
  .ok [(r"A", 3346), (r"B", 3346), (r"C", 3308)]

/-- `[a, a + 1, …, a + k - 1]`: a run of `k` consecutive day numbers, the
shape a contribution streak takes inside the sorted active-date list. -/
def runFrom : Nat → Nat → List Nat
  | _, 0 => []
  | a, k + 1 => a :: runFrom (a + 1) k

/-! ## Theorems -/

/-- Claim C8: the paginator requests 100 items per page and concatenates
pages while each returned page is full and non-empty, stopping on the first
short or empty page: fed pages of exactly 100, 100, 37 items it returns all
237 items after exactly 3 requests, and fed a single empty page it returns
the empty list after exactly 1 request. -/
theorem claim8_pagination_termination :
    getAllPages pagedServer 10 = some (List.range 237, 3)
    ∧ getAllPages (fun _ => []) 10 = some ([], 1) := by
  constructor
  · decide
  · rfl

/-- Claim C2 (code bug): when the events fetch fails, `_get_contribution_data`
does NOT return the repo-count-based estimates: `contributed_to` is assigned
only after the fetch inside the `try`, so the `except` arm leaves it unbound
and the return statement's `len(contributed_to)` raises `UnboundLocalError`
(which `get_user_stats` then converts to a generic `ValueError`).  Evaluating
the model at a failing events fetch exhibits the raised exception. -/
theorem claim2_fallback_raises :
    getContributionData 365 monthOf31 demoUser []
      (Except.error (PyExc.requestException (r"timeout")))
      = Except.error PyExc.unboundLocalError := rfl

/-- Dropping a prefix of a list of pairs cannot increase the sum of the
second components (`Nat` entries). -/
theorem sum_map_snd_drop_le (l : List (Nat × Nat)) (k : Nat) :
    ((l.drop k).map Prod.snd).sum ≤ (l.map Prod.snd).sum := by
  conv_rhs => rw [← List.take_append_drop k l]
  rw [List.map_append, List.sum_append]
  omega

/-- Claim C1 (counterexample): with no events at all, `contributions_last_year`
is the sum over the FULL 366-entry daily walk (53: one synthetic count per
0-indexed position divisible by 7), while the truncated 60-entry `daily`
series actually returned sums to 9 — so `contributions_last_year` is NOT the
sum of the returned series. -/
theorem claim1_counterexample :
    contribField (getContributionData 365 monthOf31 demoUser [] (Except.ok []))
      ContribData.contributions_last_year = 53
    ∧ ((dailyOf (getContributionData 365 monthOf31 demoUser [] (Except.ok []))).map
        Prod.snd).sum = 9
    ∧ (9 : Nat) < 53 := by
  refine ⟨?_, ?_, by decide⟩ <;> rfl

/-- Claim C1 (amended): for every event input, `contributions_last_year`
equals the sum of the count values over the full 366-entry daily walk
(`sum(d['count'] for d in daily_list)` is computed before the `[-60:]`
truncation), and is therefore at least — in general strictly more than —
the sum over the truncated 60-entry series actually returned. -/
theorem claim1_contributions_full_sum (today : Nat) (μ : Nat → Nat) (u : String)
    (repos : List Repo) (evs : List Event) :
    contribField (getContributionData today μ u repos (Except.ok evs))
        ContribData.contributions_last_year
      = ((fullDailyList today evs).map Prod.snd).sum
    ∧ ((dailyOf (getContributionData today μ u repos (Except.ok evs))).map Prod.snd).sum
      ≤ contribField (getContributionData today μ u repos (Except.ok evs))
          ContribData.contributions_last_year := by
  constructor
  · rfl
  · exact sum_map_snd_drop_le (fullDailyList today evs)
      ((fullDailyList today evs).length - 60)

/-- Claim C7: the daily walk emits exactly 366 entries, one per calendar day
from `today - 365` to `today` inclusive; a day with a zero bucketed count
receives a synthetic 1 exactly when its 0-indexed position in the walk is a
multiple of 7, otherwise the bucketed count is emitted unchanged; and the
returned `daily` series is exactly the final 60 entries of the walk. -/
theorem claim7_daily_series (today : Nat) (μ : Nat → Nat) (u : String)
    (repos : List Repo) (evs : List Event) :
    (fullDailyList today evs).length = 366
    ∧ fullDailyList today evs = (List.range 366).map (fun i =>
        (today - 365 + i,
          if dailyBucket today evs (today - 365 + i) = 0 then (if i % 7 = 0 then 1 else 0)
          else dailyBucket today evs (today - 365 + i)))
    ∧ dailyOf (getContributionData today μ u repos (Except.ok evs))
      = (fullDailyList today evs).drop 306 := by
  have hlen : (fullDailyList today evs).length = 366 := by
    simp [fullDailyList]
  refine ⟨hlen, ?_, ?_⟩
  · unfold fullDailyList
    apply List.map_congr_left
    intro i _
    by_cases hc : dailyBucket today evs (today - 365 + i) = 0 <;>
      by_cases hi : i % 7 = 0 <;> simp [hc, hi]
  · show (fullDailyList today evs).drop ((fullDailyList today evs).length - 60) = _
    rw [hlen]

/-- Claim C6 (counterexample): with no events at all, every monthly bucket is
zero, and the first emitted month of the returned series carries count 31 —
the NUMBER of materialized daily entries falling in that month — whereas the
sum of those entries' count values is 5 (the synthetic days only).  So a
zero-bucket month's emitted count is not the sum of the daily values. -/
theorem claim6_counterexample :
    monthlyBucket 365 monthOf31 [] 0 = 0
    ∧ (monthlyOf (getContributionData 365 monthOf31 demoUser [] (Except.ok [])))[0]?
      = some (0, 31)
    ∧ (((fullDailyList 365 []).filter (fun p => monthOf31 p.1 == 0)).map Prod.snd).sum = 5
    ∧ (5 : Nat) < 31 := by
  refine ⟨rfl, ?_, ?_, by decide⟩ <;> rfl

/-- Claim C6 (amended): the monthly walk covers the months of
`today - 365 … today` in order; a month with a nonzero bucketed event count
emits the bucketed value, a month whose bucket is zero emits the NUMBER of
already-materialized daily-series entries whose date falls in that month
(`len(...)`, regardless of those entries' count values); and the returned
`monthly` series is exactly the final 12 entries of the walk. -/
theorem claim6_monthly_series (today : Nat) (μ : Nat → Nat) (u : String)
    (repos : List Repo) (evs : List Event) :
    fullMonthlyList today μ evs = (List.range (μ today + 1 - μ (today - 365))).map (fun j =>
      (μ (today - 365) + j,
        if monthlyBucket today μ evs (μ (today - 365) + j) = 0
        then ((fullDailyList today evs).filter
              (fun p => μ p.1 = μ (today - 365) + j)).length
        else monthlyBucket today μ evs (μ (today - 365) + j)))
    ∧ monthlyOf (getContributionData today μ u repos (Except.ok evs))
      = (fullMonthlyList today μ evs).drop ((fullMonthlyList today μ evs).length - 12) := by
  constructor
  · unfold fullMonthlyList
    apply List.map_congr_left
    intro j _
    by_cases hc : monthlyBucket today μ evs (μ (today - 365) + j) = 0
    · have hf : (fullDailyList today evs).filter
          (fun p => μ p.1 == μ (today - 365) + j)
          = (fullDailyList today evs).filter
            (fun p => decide (μ p.1 = μ (today - 365) + j)) := by
        apply List.filter_congr
        intro p _
        by_cases h : μ p.1 = μ (today - 365) + j <;> simp [h]
      simp only [hc, hf, if_true]
    · simp [hc]
  · rfl

/-- The backward walk returns 0 exactly when `today` itself is not an active
date (the walk's first membership test fails). -/
theorem currentStreakLoop_eq_zero_iff (s : Finset Nat) (t : Nat) :
    currentStreakLoop s t = 0 ↔ t ∉ s := by
  cases t with
  | zero => by_cases h : 0 ∈ s <;> simp [currentStreakLoop, h]
  | succ d => by_cases h : d + 1 ∈ s <;> simp [currentStreakLoop, h]

/-- Claim C3: the streak calculator returns `current_streak = 0` if and only
if today is absent from the set of dates with a nonzero count; in particular
a series whose `today` entry is zero (or missing) yields current streak 0
even when yesterday was active, and when today is active the current streak
is at least 1. -/
theorem claim3_current_streak_zero_iff (today : Nat) (daily : List (Nat × Nat)) :
    ((calculateStreaks today daily).current = 0 ↔ today ∉ contributionDates daily)
    ∧ (1 ≤ (calculateStreaks today daily).current ↔ today ∈ contributionDates daily) := by
  have main : (calculateStreaks today daily).current = 0 ↔ today ∉ contributionDates daily := by
    unfold calculateStreaks
    by_cases hdaily : daily = []
    · subst hdaily
      simp [contributionDates]
    · simp only [if_neg hdaily]
      by_cases hs : contributionDates daily = ∅
      · simp [hs]
      · simp only [if_neg hs]
        exact currentStreakLoop_eq_zero_iff _ today
  refine ⟨main, ?_⟩
  constructor
  · intro h
    by_contra hmem
    have h0 := main.mpr hmem
    omega
  · intro h
    have := main.not
    rcases Nat.eq_zero_or_pos (calculateStreaks today daily).current with h0 | hpos
    · exact absurd (main.mp h0) (by simpa using h)
    · omega

/-- Claim C9: on a cache miss whose fresh computation fails, `get_user_stats`
classifies: status 404 yields the user-not-found error (not a generic one);
status 403 yields the rate-limit error whose no-token marker is present
exactly when no token is configured and which carries the reset header value
when present; every other status or transport failure yields a generic
error; and no failure writes anything to the cache. -/
theorem claim9_error_classification {α : Type} (u : String) (token : Option String)
    (r : Option Nat) (s : Nat) (m : String) (e : PyExc) :
    (getUserStats u token none (Except.error (PyExc.httpError (some s) r))
        : Except Raised α × Option α)
      = (Except.error ⟨PyExcType.valueError,
          if s = 404 then Msg.userNotFound u
          else if s = 403 then Msg.rateLimit token.isSome r
          else Msg.apiErrorStatus s⟩, none)
    ∧ msgNoTokenFlag (classifyException token u (PyExc.httpError (some 403) r))
      = token.isNone
    ∧ msgResetTime (classifyException token u (PyExc.httpError (some 403) r)) = r
    ∧ (getUserStats u token none (Except.error (PyExc.requestException m))
        : Except Raised α × Option α)
      = (Except.error ⟨PyExcType.valueError, Msg.networkError m⟩, none)
    ∧ (getUserStats u token none (Except.error (PyExc.httpError none r))
        : Except Raised α × Option α)
      = (Except.error ⟨PyExcType.valueError, Msg.apiErrorStr⟩, none)
    ∧ (getUserStats u token none (Except.error e) : Except Raised α × Option α).2 = none := by
  refine ⟨?_, ?_, ?_, rfl, rfl, rfl⟩
  · by_cases h4 : s = 404
    · subst h4; rfl
    · by_cases h3 : s = 403
      · subst h3; rfl
      · simp [getUserStats, classifyException, h4, h3]
  · cases token <;> rfl
  · rfl

/-- Claim C10: every failure of the fresh computation escapes
`get_user_stats` as the single exception type `ValueError` — the taxonomy
lives only in the message — and even the `UnboundLocalError` coming out of
the contribution estimator's fallback path is converted rather than
propagated as its own type. -/
theorem claim10_all_failures_value_error {α : Type} (u : String) (token : Option String)
    (e : PyExc) :
    (∃ m, (getUserStats u token none (Except.error e) : Except Raised α × Option α).1
        = Except.error ⟨PyExcType.valueError, m⟩)
    ∧ (getUserStats u token none (Except.error PyExc.unboundLocalError)
        : Except Raised α × Option α).1
      = Except.error ⟨PyExcType.valueError, Msg.fetchError⟩ :=
  ⟨⟨classifyException token u e, rfl⟩, rfl⟩

/-- Round-half-to-even overshoots its argument by at most one half. -/
theorem roundHalfEven_le (q : ℚ) : (roundHalfEven q : ℚ) ≤ q + 1 / 2 := by
  unfold roundHalfEven
  have hfl := Int.floor_le q
  split_ifs with h1 h2 h3
  · linarith
  · push_cast
    linarith
  · linarith
  · push_cast
    linarith

/-- One-decimal rounding overshoots its argument by at most `1/20`. -/
theorem pyRound1_le (q : ℚ) : pyRound1 q ≤ q + 1 / 20 := by
  have h := roundHalfEven_le (q * 10)
  unfold pyRound1
  linarith

/-- Summing `g = f + c` over a list adds `length * c` to the sum of `f`. -/
theorem sum_map_add_const {α : Type} (l : List α) (f g : α → ℚ) (c : ℚ)
    (hg : ∀ x, g x = f x + c) :
    (l.map g).sum = (l.map f).sum + l.length * c := by
  induction l with
  | nil => simp
  | cons x xs ih =>
    simp only [List.map_cons, List.sum_cons, ih, List.length_cons, hg x]
    push_cast
    ring

/-- Summing `g = f * c` over a list scales the sum of `f` by `c`. -/
theorem sum_map_mul_const {α : Type} (l : List α) (f g : α → ℚ) (c : ℚ)
    (hg : ∀ x, g x = f x * c) :
    (l.map g).sum = (l.map f).sum * c := by
  induction l with
  | nil => simp
  | cons x xs ih =>
    simp only [List.map_cons, List.sum_cons, ih, hg x]
    ring

/-- Membership in an insertion is membership in the inserted item or the list. -/
theorem insertByBytes_mem (p a : String × Nat) (l : List (String × Nat)) :
    a ∈ insertByBytes p l ↔ a = p ∨ a ∈ l := by
  induction l with
  | nil => simp [insertByBytes]
  | cons q rest ih =>
    unfold insertByBytes
    split
    · simp
    · simp only [List.mem_cons, ih]
      tauto

/-- Inserting preserves the byte-count-descending pairwise order. -/
theorem insertByBytes_pairwise (p : String × Nat) (l : List (String × Nat))
    (h : List.Pairwise (fun a b => b.2 ≤ a.2) l) :
    List.Pairwise (fun a b => b.2 ≤ a.2) (insertByBytes p l) := by
  induction l with
  | nil => simp [insertByBytes]
  | cons q rest ih =>
    rcases List.pairwise_cons.mp h with ⟨hq, hrest⟩
    unfold insertByBytes
    by_cases hle : q.2 ≤ p.2
    · rw [if_pos hle]
      refine List.pairwise_cons.mpr ⟨?_, h⟩
      intro b hb
      rcases List.mem_cons.mp hb with hbq | hb
      · subst hbq
        exact hle
      · exact le_trans (hq b hb) hle
    · rw [if_neg hle]
      refine List.pairwise_cons.mpr ⟨?_, ih hrest⟩
      intro b hb
      rcases (insertByBytes_mem p b rest).mp hb with hbp | hb
      · subst hbp
        omega
      · exact hq b hb

/-- The stable insertion sort produces a byte-count-descending list. -/
theorem sortByBytesDesc_pairwise (l : List (String × Nat)) :
    List.Pairwise (fun a b => b.2 ≤ a.2) (sortByBytesDesc l) := by
  induction l with
  | nil => simp [sortByBytesDesc]
  | cons p rest ih => exact insertByBytes_pairwise p _ ih

/-- Insertion only permutes. -/
theorem insertByBytes_perm (p : String × Nat) (l : List (String × Nat)) :
    (insertByBytes p l).Perm (p :: l) := by
  induction l with
  | nil => simp [insertByBytes]
  | cons q rest ih =>
    unfold insertByBytes
    split
    · exact List.Perm.refl _
    · exact List.Perm.trans (List.Perm.cons q ih) (List.Perm.swap p q rest)

/-- The stable insertion sort only permutes. -/
theorem sortByBytesDesc_perm (l : List (String × Nat)) :
    (sortByBytesDesc l).Perm l := by
  induction l with
  | nil => simp [sortByBytesDesc]
  | cons p rest ih =>
    exact List.Perm.trans (insertByBytes_perm p _) (List.Perm.cons p ih)

/-- Claim C5 (counterexample): byte counts 3346, 3346, 3308 out of a total of
10000 give percentages 33.46, 33.46 and 33.08, which `round(x, 1)` rounds up
to 33.5, 33.5 and 33.1 — summing to 100.1, strictly more than 100.  So the
percentages returned by the language aggregator do not always sum to ≤ 100. -/
theorem claim5_counterexample :
    ((aggregateLanguages demoRepos demoFetch).map Prod.snd).sum = 1001 / 10
    ∧ (100 : ℚ) < ((aggregateLanguages demoRepos demoFetch).map Prod.snd).sum := by
  have htot : totalLangBytes demoRepos demoFetch = 10000 := rfl
  have hsort : sortedLangBytes demoRepos demoFetch
      = [(r"A", 3346), (r"B", 3346), (r"C", 3308)] := rfl
  have h : ((aggregateLanguages demoRepos demoFetch).map Prod.snd).sum = 1001 / 10 := by
    unfold aggregateLanguages
    rw [htot, hsort]
    norm_num [pyRound1, roundHalfEven, Int.floor_eq_iff]
    simp only [Int.fract]
    norm_num [Int.floor_eq_iff]
  refine ⟨h, ?_⟩
  rw [h]
  norm_num

/-- Claim C5 (amended): the language aggregator returns at most 8 entries;
the result is empty exactly when the total aggregated byte count is zero;
the underlying sorted byte list is descending in raw byte count; each
returned percentage is `round(bytes / total_bytes * 100, 1)` of the
corresponding sorted entry; and the percentages sum to at most 100.4 (the
original "at most 100" fails: one-decimal rounding can overshoot each of the
at most 8 entries by up to 0.05). -/
theorem claim5_language_distribution (repos : List Repo)
    (fetch : Repo → Except Unit (List (String × Nat))) :
    (aggregateLanguages repos fetch).length ≤ 8
    ∧ (aggregateLanguages repos fetch = [] ↔ totalLangBytes repos fetch = 0)
    ∧ List.Pairwise (fun a b : String × Nat => b.2 ≤ a.2) (sortedLangBytes repos fetch)
    ∧ (totalLangBytes repos fetch = 0 ∨
        aggregateLanguages repos fetch = ((sortedLangBytes repos fetch).map
          (fun p => (p.1,
            pyRound1 ((p.2 : ℚ) / (totalLangBytes repos fetch : ℚ) * 100)))).take 8)
    ∧ ((aggregateLanguages repos fetch).map Prod.snd).sum ≤ 1004 / 10 := by
  have hpair : List.Pairwise (fun a b : String × Nat => b.2 ≤ a.2)
      (sortedLangBytes repos fetch) := sortByBytesDesc_pairwise _
  by_cases hT : totalLangBytes repos fetch = 0
  · have hagg : aggregateLanguages repos fetch = [] := by
      unfold aggregateLanguages
      rw [if_pos hT]
    refine ⟨by rw [hagg]; simp, by rw [hagg]; simp [hT], hpair, Or.inl hT, ?_⟩
    rw [hagg]
    norm_num
  · have hagg : aggregateLanguages repos fetch = ((sortedLangBytes repos fetch).map
        (fun p => (p.1,
          pyRound1 ((p.2 : ℚ) / (totalLangBytes repos fetch : ℚ) * 100)))).take 8 := by
      unfold aggregateLanguages
      rw [if_neg hT]
    have hsort_nil : sortedLangBytes repos fetch = [] → totalLangBytes repos fetch = 0 := by
      intro h
      have hperm := sortByBytesDesc_perm (languageBytes repos fetch)
      unfold sortedLangBytes at h
      rw [h] at hperm
      unfold totalLangBytes
      rw [hperm.symm.eq_nil]
      simp
    refine ⟨?_, ?_, hpair, Or.inr hagg, ?_⟩
    · rw [hagg]
      exact List.length_take_le 8 _
    · constructor
      · intro h
        rw [hagg] at h
        rcases List.take_eq_nil_iff.mp h with h8 | hmap
        · exact absurd h8 (by norm_num)
        · exact hsort_nil (List.map_eq_nil_iff.mp hmap)
      · intro h
        exact absurd h hT
    · -- the 100.4 bound
      have hTpos : (0 : ℚ) < (totalLangBytes repos fetch : ℚ) := by
        exact_mod_cast Nat.pos_of_ne_zero hT
      have hTne : (totalLangBytes repos fetch : ℚ) ≠ 0 := ne_of_gt hTpos
      rw [hagg, ← List.map_take, List.map_map]
      have hstep1 : (((sortedLangBytes repos fetch).take 8).map (Prod.snd ∘ (fun p =>
          (p.1, pyRound1 ((p.2 : ℚ) / (totalLangBytes repos fetch : ℚ) * 100))))).sum
          ≤ (((sortedLangBytes repos fetch).take 8).map (fun p =>
            (p.2 : ℚ) / (totalLangBytes repos fetch : ℚ) * 100 + 1 / 20)).sum := by
        apply List.sum_le_sum
        intro i _
        show pyRound1 ((i.2 : ℚ) / (totalLangBytes repos fetch : ℚ) * 100)
          ≤ (i.2 : ℚ) / (totalLangBytes repos fetch : ℚ) * 100 + 1 / 20
        exact pyRound1_le _
      have hstep2 : (((sortedLangBytes repos fetch).take 8).map (fun p =>
          (p.2 : ℚ) / (totalLangBytes repos fetch : ℚ) * 100 + 1 / 20)).sum
          = (((sortedLangBytes repos fetch).take 8).map (fun p =>
            (p.2 : ℚ) / (totalLangBytes repos fetch : ℚ) * 100)).sum
            + ((sortedLangBytes repos fetch).take 8).length * (1 / 20) := by
        apply sum_map_add_const
        intro x
        rfl
      have hstep3 : (((sortedLangBytes repos fetch).take 8).map (fun p =>
          (p.2 : ℚ) / (totalLangBytes repos fetch : ℚ) * 100)).sum
          ≤ ((sortedLangBytes repos fetch).map (fun p =>
            (p.2 : ℚ) / (totalLangBytes repos fetch : ℚ) * 100)).sum := by
        conv_rhs => rw [← List.take_append_drop 8 (sortedLangBytes repos fetch)]
        rw [List.map_append, List.sum_append]
        have hnn : (0 : ℚ) ≤ (((sortedLangBytes repos fetch).drop 8).map (fun p =>
            (p.2 : ℚ) / (totalLangBytes repos fetch : ℚ) * 100)).sum := by
          apply List.sum_nonneg
          intro x hx
          obtain ⟨y, _, rfl⟩ := List.mem_map.mp hx
          positivity
        linarith
      have hstep4 : ((sortedLangBytes repos fetch).map (fun p =>
          (p.2 : ℚ) / (totalLangBytes repos fetch : ℚ) * 100)).sum
          = ((languageBytes repos fetch).map (fun p =>
            (p.2 : ℚ) / (totalLangBytes repos fetch : ℚ) * 100)).sum :=
        ((sortByBytesDesc_perm (languageBytes repos fetch)).map _).sum_eq
      have hstep5 : ((languageBytes repos fetch).map (fun p =>
          (p.2 : ℚ) / (totalLangBytes repos fetch : ℚ) * 100)).sum = 100 := by
        have hmul : ((languageBytes repos fetch).map (fun p =>
            (p.2 : ℚ) / (totalLangBytes repos fetch : ℚ) * 100)).sum
            = ((languageBytes repos fetch).map (fun p => (p.2 : ℚ))).sum
              * (100 / (totalLangBytes repos fetch : ℚ)) := by
          apply sum_map_mul_const
          intro x
          field_simp
        rw [hmul]
        have hcast : ((languageBytes repos fetch).map (fun p => (p.2 : ℚ))).sum
            = ((totalLangBytes repos fetch : ℕ) : ℚ) := by
          unfold totalLangBytes
          rw [Nat.cast_list_sum, List.map_map]
          rfl
        rw [hcast]
        field_simp
      have hlen8 : (((sortedLangBytes repos fetch).take 8).length : ℚ) ≤ 8 := by
        exact_mod_cast List.length_take_le 8 (sortedLangBytes repos fetch)
      calc (((sortedLangBytes repos fetch).take 8).map (Prod.snd ∘ (fun p =>
              (p.1, pyRound1 ((p.2 : ℚ) / (totalLangBytes repos fetch : ℚ) * 100))))).sum
          ≤ (((sortedLangBytes repos fetch).take 8).map (fun p =>
              (p.2 : ℚ) / (totalLangBytes repos fetch : ℚ) * 100 + 1 / 20)).sum := hstep1
        _ = (((sortedLangBytes repos fetch).take 8).map (fun p =>
              (p.2 : ℚ) / (totalLangBytes repos fetch : ℚ) * 100)).sum
              + ((sortedLangBytes repos fetch).take 8).length * (1 / 20) := hstep2
        _ ≤ 100 + 8 * (1 / 20) := by
              linarith [hstep3, hstep4, hstep5, hlen8]
        _ ≤ 1004 / 10 := by norm_num

/-- The longest-streak scan's result is at least both the running length and
the best-so-far. -/
theorem longestLoop_fst_ge (l : List Nat) : ∀ prev len best bs be,
    max len best ≤ (longestLoop prev len best bs be l).1 := by
  induction l with
  | nil =>
    intro prev len best bs be
    simp only [longestLoop]
    split <;> simp <;> omega
  | cons d rest ih =>
    intro prev len best bs be
    simp only [longestLoop]
    split
    · exact le_trans (show max len best ≤ max (len + 1) best by omega)
        (ih d (len + 1) best bs be)
    · split
      · exact le_trans (show max len best ≤ max 1 len by omega) (ih d 1 len _ _)
      · exact le_trans (show max len best ≤ max 1 best by omega) (ih d 1 best bs be)

/-- Feeding the scan a run of `j` consecutive successors of `prev` extends the
running length by `j`, whatever follows. -/
theorem longestLoop_run (j : Nat) : ∀ prev len best bs be l2,
    len + j ≤ (longestLoop prev len best bs be (runFrom (prev + 1) j ++ l2)).1 := by
  induction j with
  | zero =>
    intro prev len best bs be l2
    simp only [runFrom, List.nil_append]
    exact le_trans (by omega) (longestLoop_fst_ge l2 prev len best bs be)
  | succ j ih =>
    intro prev len best bs be l2
    simp only [runFrom, List.cons_append, longestLoop]
    rw [if_pos (show prev + 1 - prev = 1 by omega)]
    have h := ih (prev + 1) (len + 1) best bs be l2
    simp only [List.append_eq] at h ⊢
    omega

/-- A scan over any list containing a run of `k + 1` consecutive values as a
contiguous block reports a longest streak of at least `k + 1`. -/
theorem longestLoop_contains (k : Nat) (a : List Nat) : ∀ (d : Nat) (b : List Nat)
    (prev len best : Nat) (bs be : Option Nat),
    k + 1 ≤ (longestLoop prev len best bs be (a ++ (runFrom d (k + 1) ++ b))).1 := by
  induction a with
  | nil =>
    intro d b prev len best bs be
    simp only [List.nil_append, runFrom, List.cons_append]
    simp only [longestLoop]
    split
    · have h := longestLoop_run k d (len + 1) best bs be b
      omega
    · split
      · have h := longestLoop_run k d 1 len (some (prev + 1 - len)) (some prev) b
        omega
      · have h := longestLoop_run k d 1 best bs be b
        omega
  | cons x a2 ih =>
    intro d b prev len best bs be
    simp only [List.cons_append]
    simp only [longestLoop]
    split
    · exact ih d b x (len + 1) best bs be
    · split
      · exact ih d b x 1 len (some (prev + 1 - len)) (some prev)
      · exact ih d b x 1 best bs be

/-- The backward walk from `today` counts at most `today + 1` days. -/
theorem currentStreakLoop_le (s : Finset Nat) (t : Nat) :
    currentStreakLoop s t ≤ t + 1 := by
  induction t with
  | zero =>
    simp only [currentStreakLoop]
    split <;> omega
  | succ d ih =>
    simp only [currentStreakLoop]
    split <;> omega

/-- Every day the backward walk counted is an active date: the `i`-th counted
day (0-indexed) is `t - i`. -/
theorem currentStreakLoop_mem (s : Finset Nat) (t : Nat) :
    ∀ i, i < currentStreakLoop s t → t - i ∈ s := by
  induction t with
  | zero =>
    intro i hi
    simp only [currentStreakLoop] at hi
    split at hi
    · have hz : i = 0 := by omega
      subst hz
      simpa using (by assumption : 0 ∈ s)
    · omega
  | succ d ih =>
    intro i hi
    simp only [currentStreakLoop] at hi
    split at hi
    · rename_i hmem
      cases i with
      | zero => simpa using hmem
      | succ j =>
        have heq : d + 1 - (j + 1) = d - j := by omega
        rw [heq]
        exact ih j (by omega)
    · omega

/-- A strictly sorted list containing `k + 1` consecutive values contains them
as a contiguous block. -/
theorem sorted_run_decomp (l : List Nat) (hl : l.Sorted (. < .)) :
    ∀ lo k, (∀ i, i < k + 1 → lo + i ∈ l) →
      ∃ a b, l = a ++ (runFrom lo (k + 1) ++ b) := by
  induction l with
  | nil =>
    intro lo k hmem
    exact absurd (hmem 0 (by omega)) (List.not_mem_nil _)
  | cons x t ih =>
    intro lo k hmem
    rcases List.sorted_cons.mp hl with ⟨hx, ht⟩
    by_cases hxlo : x = lo
    · subst hxlo
      cases k with
      | zero =>
        refine ⟨[], t, ?_⟩
        simp [runFrom]
      | succ k2 =>
        have hmem2 : ∀ i, i < k2 + 1 → (x + 1) + i ∈ t := by
          intro i hi
          have hm := hmem (i + 1) (by omega)
          have heq : x + (i + 1) = x + 1 + i := by omega
          rw [heq] at hm
          rcases List.mem_cons.mp hm with he | hm2
          · exfalso
            omega
          · exact hm2
        obtain ⟨a2, b2, hteq⟩ := ih ht (x + 1) k2 hmem2
        cases a2 with
        | nil =>
          refine ⟨[], b2, ?_⟩
          simp only [List.nil_append] at hteq
          simp [runFrom, hteq]
        | cons y a3 =>
          exfalso
          have hyt : y ∈ t := by
            rw [hteq]
            simp
          have hxy : x < y := hx y hyt
          have hpairs := ht
          rw [hteq] at hpairs
          have hyv : y < x + 1 := by
            apply (List.pairwise_append.mp hpairs).2.2 y (by simp) (x + 1)
            simp [runFrom]
          omega
    · have hlot : lo ∈ t := by
        have hm := hmem 0 (by omega)
        simp only [Nat.add_zero] at hm
        rcases List.mem_cons.mp hm with he | hm2
        · exact absurd he.symm hxlo
        · exact hm2
      have hxlt : x < lo := hx lo hlot
      have hmem2 : ∀ i, i < k + 1 → lo + i ∈ t := by
        intro i hi
        rcases List.mem_cons.mp (hmem i hi) with he | hm2
        · exfalso
          omega
        · exact hm2
      obtain ⟨a2, b2, h2⟩ := ih ht lo k hmem2
      refine ⟨x :: a2, b2, ?_⟩
      rw [h2]
      rfl

/-- The backward current-streak count never exceeds the longest streak the
forward scan finds over the sorted active dates. -/
theorem currentStreak_le_longestFrom (s : Finset Nat) (today : Nat) :
    currentStreakLoop s today ≤ (longestFrom (s.sort (. ≤ .))).1 := by
  rcases Nat.eq_zero_or_pos (currentStreakLoop s today) with h0 | hpos
  · rw [h0]
    exact Nat.zero_le _
  · obtain ⟨k, hk⟩ : ∃ k, currentStreakLoop s today = k + 1 :=
      ⟨currentStreakLoop s today - 1, by omega⟩
    have hle := currentStreakLoop_le s today
    have hmem : ∀ i, i < k + 1 →
        (today + 1 - (k + 1)) + i ∈ s.sort (. ≤ .) := by
      intro i hi
      have hmm := currentStreakLoop_mem s today (k - i) (by omega)
      have heq : today + 1 - (k + 1) + i = today - (k - i) := by omega
      rw [heq]
      exact (Finset.mem_sort _).mpr hmm
    have hsorted : (s.sort (. ≤ .)).Sorted (. < .) := Finset.sort_sorted_lt _
    obtain ⟨a, b, hdecomp⟩ := sorted_run_decomp _ hsorted (today + 1 - (k + 1)) k hmem
    rw [hk, hdecomp]
    cases a with
    | nil =>
      simp only [List.nil_append, runFrom, List.cons_append, longestFrom]
      have h := longestLoop_run k (today + 1 - (k + 1)) 1 0 none none b
      omega
    | cons x a2 =>
      simp only [List.cons_append, longestFrom]
      have h := longestLoop_contains k a2 (today + 1 - (k + 1)) b x 1 0 none none
      omega

/-- Claim C4: for every daily series, the streak calculator returns
`longest_streak ≥ current_streak`, and both are non-negative. -/
theorem claim4_streak_invariant (today : Nat) (daily : List (Nat × Nat)) :
    (calculateStreaks today daily).current ≤ (calculateStreaks today daily).longest
    ∧ 0 ≤ (calculateStreaks today daily).current
    ∧ 0 ≤ (calculateStreaks today daily).longest := by
  refine ⟨?_, Nat.zero_le _, Nat.zero_le _⟩
  by_cases h1 : daily = []
  · simp [calculateStreaks, h1]
  · by_cases h2 : contributionDates daily = ∅
    · simp [calculateStreaks, if_neg h1, h2]
    · simp only [calculateStreaks, if_neg h1, if_neg h2]
      exact currentStreak_le_longestFrom (contributionDates daily) today
